import Mathlib

set_option maxHeartbeats 1000000

/-!
Shallow embedding of the BlueZ interactive shell, `src/shared/shell.c`.

Strings are modelled as `List Char`; C `NULL` pointers become `Option.none`;
the global `static struct { ... } data` becomes the explicit `ShellState`
record threaded through each operation.  Terminal side effects (printed
lines, handler invocations, run-loop termination requests) are collected in
an `Event` list in the order the C code performs them.  Display-only calls
into readline (`rl_redisplay`, `rl_save_prompt`, `rl_message`, ...) carry no
state relevant to the verified claims and are not recorded, except that
`rl_replace_line("", 0)` in the signal handler is recorded as
`Event.clearLine` and run-loop termination (`g_main_loop_quit`) as
`Event.quitLoop`.
-/

/-- C strings (without the terminating NUL). -/
abbrev Str := List Char

/-- A command handler: the three built-in functions of `shell.c`
(`cmd_version`, `cmd_quit`, `cmd_help`) or an externally registered
function pointer, identified by an opaque number. -/
inductive Handler where
  | version
  | quit
  | help
  | ext (id : Nat)
  deriving DecidableEq

/-- Observable effects, in program order. -/
inductive Event where
  /-- a `print_text` line -/
  | textOut (s : Str)
  /-- one `print_menu` row: command, argument spec, description -/
  | menuRow (cmd argSpec desc : Str)
  /-- `cmd_version`'s `bt_shell_printf("Version %s\n", VERSION)` -/
  | versionOut
  /-- an external menu entry's handler invoked with the given argument -/
  | extCall (id : Nat) (arg : Str)
  /-- `g_main_loop_quit(main_loop)` -/
  | quitLoop
  /-- the saved prompt callback invoked: `func(input, user_data)` -/
  | promptCall (f : Option Nat) (input : Str) (ctx : Nat)
  /-- `io_destroy(data.input)` inside `bt_shell_detach` -/
  | detachInput
  /-- `rl_replace_line("", 0)` in the signal handler -/
  | clearLine
  deriving DecidableEq

/-- `struct bt_shell_menu_entry`: `{ cmd, arg, func, desc, gen, disp }`.
`gen` is the argument completer (`rl_compentry_func_t *`) and `disp` the
match-display hook, both identified by opaque numbers when present. -/
structure MenuEntry where
  cmd : Str
  arg : Option Str
  func : Option Handler
  desc : Option Str
  gen : Option Nat
  disp : Option Nat
  deriving DecidableEq

/-- The `static struct { ... } data` singleton of `shell.c`, plus the
readline history list (oldest entry first, most recent last). -/
structure ShellState where
  menu : Option (List MenuEntry)
  history : List Str
  saved_prompt : Bool
  saved_func : Option Nat
  saved_user_data : Nat
  input : Bool
  deriving DecidableEq

/-- Initial (all-zero) value of the static `data` struct: no menu, no
pending prompt, no input binding, empty history. -/
def data_init : ShellState := ⟨none, [], false, none, 0, false⟩

/-- `default_menu[]`: the fixed built-in table.  The `{ }` sentinel is the
end of the list.  No built-in entry declares a completer (`gen`) or a
display hook (`disp`). -/
def default_menu : List MenuEntry :=
  [ ⟨"version".toList, none, some Handler.version, some "Display version".toList, none, none⟩,
    ⟨"quit".toList, none, some Handler.quit, some "Quit program".toList, none, none⟩,
    ⟨"exit".toList, none, some Handler.quit, some "Quit program".toList, none, none⟩,
    ⟨"help".toList, none, some Handler.help,
      some "Display help about this program".toList, none, none⟩ ]

/-- `shell_print_menu()`: returns immediately when `data.menu` is NULL;
otherwise prints the two header lines, then one `print_menu` row per
external entry, then one per built-in entry (`entry->arg ?: ""`,
`entry->desc ?: ""`). -/
def shell_print_menu (menu : Option (List MenuEntry)) : List Event :=
  match menu with
  | none => []
  | some m =>
    Event.textOut "Available commands:".toList ::
    Event.textOut "-------------------".toList ::
    (m ++ default_menu).map (fun e => Event.menuRow e.cmd (e.arg.getD []) (e.desc.getD []))

/-- One linear scan of `shell_exec`'s lookup loops: the first entry whose
`cmd` matches and whose `func` is non-NULL (a matching entry with NULL
`func` is skipped by the `continue`). -/
def find_exec : List MenuEntry → Str → Option Handler
  | [], _ => none
  | e :: rest, c =>
    if e.cmd = c then
      match e.func with
      | some h => some h
      | none => find_exec rest c
    else find_exec rest c

/-- Invoking a resolved handler.  `cmd_help` calls `shell_print_menu`,
which reads `data.menu`. -/
def runHandler (menu : Option (List MenuEntry)) : Handler → Str → List Event
  | Handler.version, _ => [Event.versionOut]
  | Handler.quit, _ => [Event.quitLoop]
  | Handler.help, _ => shell_print_menu menu
  | Handler.ext id, arg => [Event.extCall id arg]

/-- `shell_exec(cmd, arg)`: returns immediately when `data.menu` or `cmd`
is NULL; otherwise scans the external table, then the built-in table, and
prints "Invalid command" when neither resolves. -/
def shell_exec (menu : Option (List MenuEntry)) (cmd : Option Str) (arg : Str) : List Event :=
  match menu, cmd with
  | none, _ => []
  | some _, none => []
  | some m, some c =>
    match find_exec m c with
    | some h => runHandler (some m) h arg
    | none =>
      match find_exec default_menu c with
      | some h => runHandler (some m) h arg
      | none => [Event.textOut "Invalid command".toList]

/-- `bt_shell_prompt_input(label, msg, func, user_data)`: when a prompt is
already saved the function returns before any side effect; otherwise it
saves the callback and context and sets the flag.  `label` and `msg` only
feed the `rl_message` display call. -/
def bt_shell_prompt_input (st : ShellState) (label msg : Str) (f : Nat) (ctx : Nat) :
    ShellState :=
  if st.saved_prompt then st
  else { st with saved_prompt := true, saved_func := some f, saved_user_data := ctx }

/-- `bt_shell_release_prompt(input)`: fails (returns -1, modelled `false`)
when no prompt is saved; otherwise clears the flag, copies the callback and
context into locals, NULLs the stored ones, invokes `func(input, user_data)`
once, and returns 0 (modelled `true`). -/
def bt_shell_release_prompt (st : ShellState) (inp : Str) : ShellState × List Event × Bool :=
  if st.saved_prompt = false then (st, [], false)
  else
    ({ st with saved_prompt := false, saved_func := none, saved_user_data := 0 },
     [Event.promptCall st.saved_func inp st.saved_user_data], true)

/-- Within-line scan of GNU readline's `history_search(string, -1)`: for a
backward search the line index starts at `line_len - string_len` and moves
down, so the position of the last occurrence of the needle in the line is
returned (as `some index`), or `none` when the line does not contain it. -/
def searchLineRev (needle line : Str) : Nat → Option Nat
  | 0 => if needle.isPrefixOf line then some 0 else none
  | i + 1 =>
    if needle.isPrefixOf (line.drop (i + 1)) then some (i + 1)
    else searchLineRev needle line i

/-- Backward scan over the history lines, most recent first. -/
def historySearchAux (needle : Str) : List Str → Option Nat
  | [] => none
  | line :: older =>
    match searchLineRev needle line (line.length - needle.length) with
    | some j => some j
    | none => historySearchAux needle older

/-- GNU readline `history_search(string, -1)` as called by `rl_handler`:
searches the history backward (most recent entry first) for a line
containing `needle` as a substring and returns the offset of the match
inside that line, or `none` (C: -1) when no line contains it.  The history
offset is taken at the end of the list, its position when no history
navigation is in progress. -/
def history_search (needle : Str) (hist : List Str) : Option Nat :=
  historySearchAux needle hist.reverse

/-- `if (history_search(input, -1)) add_history(input);` — the line is
appended exactly when the search result is non-zero (found at a non-zero
offset, or not found at all, C return -1). -/
def rl_history_update (st : ShellState) (l : Str) : List Str :=
  if history_search l st.history ≠ some 0 then st.history ++ [l] else st.history

/-- First call of `strtok_r(input, " ", &arg)` plus the resulting `arg`
pointer: leading delimiters are skipped; the token runs to the next space;
exactly one separator character is overwritten with NUL, so `arg` points
just past it (or to the terminating NUL, giving the empty string, when the
token reaches the end).  When the line is all spaces the token is NULL. -/
def strtok_split (l : Str) : Option Str × Str :=
  match l.dropWhile (fun c => c == ' ') with
  | [] => (none, [])
  | s =>
    match s.dropWhile (fun c => c != ' ') with
    | [] => (some (s.takeWhile (fun c => c != ' ')), [])
    | _ :: after => (some (s.takeWhile (fun c => c != ' ')), after)

/-- `if (len > 0 && arg[len - 1] == ' ') arg[len - 1] = '\0';` -/
def strip_trailing_space (a : Str) : Str :=
  match a.getLast? with
  | some ' ' => a.dropLast
  | _ => a

/-- `rl_handler(input)`: NULL input (end of stream) synthesizes `quit` into
the display and stops the loop; an empty line is freed and dropped; then a
successful `bt_shell_release_prompt(input)` consumes the line; otherwise
the line is conditionally added to history, tokenized with `strtok_r`, a
single trailing space of the argument is stripped, and `shell_exec` runs. -/
def rl_handler (st : ShellState) (inp : Option Str) : ShellState × List Event :=
  match inp with
  | none => (st, [Event.quitLoop])
  | some l =>
    if l = [] then (st, [])
    else if (bt_shell_release_prompt st l).2.2 then
      ((bt_shell_release_prompt st l).1, (bt_shell_release_prompt st l).2.1)
    else
      match strtok_split l with
      | (none, _) => ({ st with history := rl_history_update st l }, [])
      | (some c, a) =>
        ({ st with history := rl_history_update st l },
         shell_exec st.menu (some c) (strip_trailing_space a))

/-- The scan inside `menu_completion`: first entry whose `cmd` equals
`input_cmd` and whose `gen` is non-NULL (a matching entry with NULL `gen`
is skipped by the `continue`); yields its completer and display hook. -/
def findGen : List MenuEntry → Str → Option (Nat × Option Nat)
  | [], _ => none
  | e :: rest, c =>
    if e.cmd = c then
      match e.gen with
      | some g => some (g, e.disp)
      | none => findGen rest c
    else findGen rest c

/-- `menu_completion(entry, text, input_cmd)`.  The `entry` parameter is
shadowed by the loop variable (`for (entry = data.menu; ...)`), so the scan
always runs over the external table `data.menu`; the parameter is kept here
(unused) to mirror the source.  `rl_completion_matches` yields NULL
(modelled `none`) when the delegated generator produces no candidate. -/
def menu_completion (dataMenu _entryParam : List MenuEntry)
    (genFun : Nat → Str → List Str) (text input_cmd : Str) :
    Option (Option Nat × List Str) :=
  match findGen dataMenu input_cmd with
  | none => none
  | some (g, d) =>
    match genFun g text with
    | [] => none
    | ms => some (d, ms)

/-- The match list produced by repeated `cmd_generator(text, state)` calls:
the scan starts on the built-in table; only when the first (`state == 0`)
call exhausts it without any match does the generator switch to the
external table, otherwise a later call that exhausts the table returns NULL
and iteration stops. -/
def cmd_generator_matches (menu : List MenuEntry) (text : Str) : List Str :=
  match (default_menu.filter (fun e => text.isPrefixOf e.cmd)).map (fun e => e.cmd) with
  | [] => (menu.filter (fun e => text.isPrefixOf e.cmd)).map (fun e => e.cmd)
  | ms => ms

/-- `shell_completion(text, start, end)`: NULL when no menu is attached.
With the cursor past column 0 the already-typed command is
`strndup(rl_line_buffer, start - 1)`; `menu_completion` is tried with the
built-in table argument, then with the external table argument (both scans
actually run over the external table, see `menu_completion`).  At column 0
the display hook is cleared and `cmd_generator` supplies command-name
matches.  A NULL match list sets `rl_attempted_completion_over`, modelled
as the `none` result: no candidates are offered.  The `some` result carries
the display hook installed for the match list. -/
def shell_completion (menu : Option (List MenuEntry)) (genFun : Nat → Str → List Str)
    (lineBuffer text : Str) (start : Nat) : Option (Option Nat × List Str) :=
  match menu with
  | none => none
  | some m =>
    if 0 < start then
      match menu_completion m default_menu genFun text (lineBuffer.take (start - 1)) with
      | some r => some r
      | none => menu_completion m m genFun text (lineBuffer.take (start - 1))
    else
      match cmd_generator_matches m text with
      | [] => none
      | ms => some (none, ms)

/-- The argument-completion behaviour in the words of the specification:
look the typed command up first in the built-in table, then in the external
table, for an entry declaring an argument completer; delegate to that
completer together with its display hook; offer no candidates otherwise. -/
def spec_argument_completion (m : List MenuEntry) (genFun : Nat → Str → List Str)
    (text input_cmd : Str) : Option (Option Nat × List Str) :=
  match findGen (default_menu ++ m) input_cmd with
  | none => none
  | some (g, d) =>
    match genFun g text with
    | [] => none
    | ms => some (d, ms)

/-- C `isprint` in the default locale: bytes 0x20..0x7e. -/
def isprint (b : Nat) : Bool := decide (32 ≤ b ∧ b ≤ 126)

/-- `isprint(buf[i]) ? buf[i] : '.'` -/
def renderAscii (b : Nat) : Char := if isprint b then Char.ofNat b else '.'

/-- `hexdigits[n]` with `hexdigits = "0123456789abcdef"`. -/
def hexdigit (n : Nat) : Char := "0123456789abcdef".toList.getD n ' '

/-- The three characters written at `str[j*3+1..j*3+3]` for column `j`:
a space then the two hex digits of the byte, or three pad spaces past the
end of a partial row. -/
def hexTriple (c : List Nat) (j : Nat) : List Char :=
  match c.get? j with
  | some b => [' ', hexdigit (b / 16), hexdigit (b % 16)]
  | none => [' ', ' ', ' ']

/-- `str[1..48]`: the sixteen hex columns of one row. -/
def hexPairs (c : List Nat) : List Char :=
  ((List.range 16).map (hexTriple c)).flatten

/-- The character written at `str[j + 51]`: the rendered byte, or a pad
space past the end of a partial row. -/
def asciiEntry (c : List Nat) (j : Nat) : Char :=
  match c.get? j with
  | some b => renderAscii b
  | none => ' '

/-- `str[51..66]`: the ASCII column of one row. -/
def asciiCol (c : List Nat) : List Char :=
  (List.range 16).map (asciiEntry c)

/-- One printed row of `bt_shell_hexdump` for a chunk of at most 16 bytes:
`str[0] = ' '`, the hex columns, the two spaces at `str[49]`/`str[50]`,
then the ASCII column; `str[67]` is the terminating NUL. -/
def hexdump_row (c : List Nat) : List Char :=
  ' ' :: hexPairs c ++ [' ', ' '] ++ asciiCol c

/-- Splits the buffer into the successive 16-byte groups after which the
loop in `bt_shell_hexdump` emits a row (the final group may be shorter).
Structural recursion on a fuel bounded by the list length. -/
def chunks16Aux : Nat → List Nat → List (List Nat)
  | 0, _ => []
  | _ + 1, [] => []
  | fuel + 1, b :: rest =>
    (b :: rest).take 16 :: chunks16Aux fuel ((b :: rest).drop 16)

/-- The 16-byte groups of a buffer. -/
def chunks16 (l : List Nat) : List (List Nat) := chunks16Aux l.length l

/-- `bt_shell_hexdump(buf, len)`: the list of printed rows.  A zero-length
buffer returns before printing anything. -/
def bt_shell_hexdump (buf : List Nat) : List (List Char) :=
  (chunks16 buf).map hexdump_row

/-- The two signals the shell masks and consumes through the signalfd. -/
inductive Sig where
  | int
  | term
  deriving DecidableEq

/-- The `case SIGTERM` body (also reached from `SIGINT` by fall through):
when not yet terminated, clear the line and quit the loop; in every case
set the static `terminated` flag. -/
def sigterm_action (terminated : Bool) : Bool × List Event :=
  if terminated then (true, [])
  else (true, [Event.clearLine, Event.quitLoop])

/-- `signal_read` on one decoded `signalfd_siginfo` record: `SIGINT` with
an input binding only clears and redraws the line; `SIGINT` without one
falls through to the `SIGTERM` case.  The first component is the static
`terminated` flag before/after the call. -/
def signal_read (terminated : Bool) (sig : Sig) (inputBound : Bool) : Bool × List Event :=
  match sig, inputBound with
  | Sig.int, true => (terminated, [Event.clearLine])
  | Sig.int, false => sigterm_action terminated
  | Sig.term, _ => sigterm_action terminated

/-- `signal_read` folded over a sequence of delivered records, each paired
with whether `data.input` was bound at delivery time. -/
def signal_trace (terminated : Bool) : List (Sig × Bool) → Bool × List Event
  | [] => (terminated, [])
  | (s, b) :: rest =>
    ((signal_trace (signal_read terminated s b).1 rest).1,
     (signal_read terminated s b).2 ++ (signal_trace (signal_read terminated s b).1 rest).2)

/-- `bt_shell_set_menu(menu)`: fails without mutation when a table is
already attached or the argument is NULL. -/
def bt_shell_set_menu (st : ShellState) (menu : Option (List MenuEntry)) :
    ShellState × Bool :=
  match st.menu, menu with
  | some _, _ => (st, false)
  | none, none => (st, false)
  | none, some m => ({ st with menu := some m }, true)

/-- `bt_shell_detach()`: fails when no input binding exists; otherwise
destroys it and clears `data.input`. -/
def bt_shell_detach (st : ShellState) : ShellState × List Event × Bool :=
  if st.input then ({ st with input := false }, [Event.detachInput], true)
  else (st, [], false)

/-- The teardown sequence at the end of `bt_shell_run`, after
`g_main_loop_run` returns: `bt_shell_release_prompt("")` and then
`bt_shell_detach()` (the remaining statements destroy the signal io, the
main loop and the readline callback handler). -/
def bt_shell_run_end (st : ShellState) : ShellState × List Event :=
  ((bt_shell_detach (bt_shell_release_prompt st []).1).1,
   (bt_shell_release_prompt st []).2.1 ++
     (bt_shell_detach (bt_shell_release_prompt st []).1).2.1)

/-! ### Witness states and tables used in concrete instantiations -/

/-- A state with an active prompt override (callback 1, context 2). -/
def stPromptActive : ShellState := ⟨none, [], true, some 1, 2, false⟩

/-- A state with an active prompt override and a bound input descriptor. -/
def stRunPending : ShellState := ⟨none, [], true, some 3, 4, true⟩

/-- An external table with a single command `e` (handler id 0). -/
def menuE : List MenuEntry :=
  [⟨"e".toList, none, some (Handler.ext 0), none, none, none⟩]

/-- An external table whose command `c` declares completer 5 and display
hook 6. -/
def menuC : List MenuEntry :=
  [⟨"c".toList, none, some (Handler.ext 1), none, some 5, some 6⟩]

/-- A completer environment for witnesses: completer 5 offers `aa`. -/
def genW : Nat → Str → List Str := fun g _ => if g = 5 then ["aa".toList] else []

/-- A state with the table `menuE` attached and nothing else pending. -/
def stMenuE : ShellState := ⟨some menuE, [], false, none, 0, false⟩

/-- A 17-byte buffer (two hexdump rows) containing the non-printable bytes
0 and 200. -/
def buf17 : List Nat :=
  [104, 105, 0, 200, 65, 66, 67, 68, 69, 70, 71, 72, 73, 74, 75, 76, 77]

/-! ### Basic reduction lemmas -/

theorem release_prompt_idle (st : ShellState) (l : Str) (h : st.saved_prompt = false) :
    bt_shell_release_prompt st l = (st, [], false) := by
  simp [bt_shell_release_prompt, h]

theorem release_prompt_active (st : ShellState) (l : Str) (h : st.saved_prompt = true) :
    bt_shell_release_prompt st l =
      ({ st with saved_prompt := false, saved_func := none, saved_user_data := 0 },
       [Event.promptCall st.saved_func l st.saved_user_data], true) := by
  simp [bt_shell_release_prompt, h]

theorem rl_handler_prompt (st : ShellState) (l : Str) (h : st.saved_prompt = true)
    (hl : l ≠ []) :
    rl_handler st (some l) =
      ({ st with saved_prompt := false, saved_func := none, saved_user_data := 0 },
       [Event.promptCall st.saved_func l st.saved_user_data]) := by
  simp [rl_handler, hl, release_prompt_active st l h]

theorem rl_handler_dispatch (st : ShellState) (l : Str) (c a : Str)
    (h : st.saved_prompt = false) (hl : l ≠ []) (hs : strtok_split l = (some c, a)) :
    rl_handler st (some l) =
      ({ st with history := rl_history_update st l },
       shell_exec st.menu (some c) (strip_trailing_space a)) := by
  simp [rl_handler, hl, release_prompt_idle st l h, hs]

theorem rl_handler_no_token (st : ShellState) (l : Str) (a : Str)
    (h : st.saved_prompt = false) (hl : l ≠ []) (hs : strtok_split l = (none, a)) :
    rl_handler st (some l) = ({ st with history := rl_history_update st l }, []) := by
  simp [rl_handler, hl, release_prompt_idle st l h, hs]

/-! ### C2: prompt-override exclusivity -/

/-- C2: in every state with a prompt override active, a second
`bt_shell_prompt_input` leaves the stored callback and context (indeed the
whole state) unchanged, and a subsequent `bt_shell_release_prompt` with any
input invokes only the first callback, exactly once, with exactly that
input string and the first context, after which no override is pending. -/
theorem prompt_exclusive (st : ShellState) (label msg : Str) (f₂ c₂ : Nat) (inp : Str)
    (h : st.saved_prompt = true) :
    bt_shell_prompt_input st label msg f₂ c₂ = st ∧
    (bt_shell_release_prompt (bt_shell_prompt_input st label msg f₂ c₂) inp).2.1 =
      [Event.promptCall st.saved_func inp st.saved_user_data] ∧
    (bt_shell_release_prompt (bt_shell_prompt_input st label msg f₂ c₂) inp).1.saved_prompt
      = false := by
  have h1 : bt_shell_prompt_input st label msg f₂ c₂ = st := by
    simp [bt_shell_prompt_input, h]
  refine ⟨h1, ?_, ?_⟩ <;> rw [h1, release_prompt_active st inp h]

theorem prompt_exclusive_witness :
    stPromptActive.saved_prompt = true ∧
    bt_shell_prompt_input stPromptActive [] [] 9 8 = stPromptActive ∧
    (bt_shell_release_prompt (bt_shell_prompt_input stPromptActive [] [] 9 8)
        "ok".toList).2.1 = [Event.promptCall (some 1) "ok".toList 2] :=
  ⟨rfl, (prompt_exclusive stPromptActive [] [] 9 8 "ok".toList rfl).1,
    (prompt_exclusive stPromptActive [] [] 9 8 "ok".toList rfl).2.1⟩

/-! ### C6: the menu table is attached at most once -/

/-- C6: `bt_shell_set_menu` fails, returning `false` with the state (and in
particular any previously attached table) unchanged, whenever a table is
already attached or the argument is NULL; and after any successful call the
attached table is the argument and every further call fails without
mutation. -/
theorem set_menu_once :
    (∀ (st : ShellState) (m : Option (List MenuEntry)),
        st.menu ≠ none ∨ m = none → bt_shell_set_menu st m = (st, false)) ∧
    (∀ (st : ShellState) (m₀ m₁ : Option (List MenuEntry)),
        (bt_shell_set_menu st m₀).2 = true →
          (bt_shell_set_menu st m₀).1.menu = m₀ ∧
          bt_shell_set_menu (bt_shell_set_menu st m₀).1 m₁ =
            ((bt_shell_set_menu st m₀).1, false)) := by
  constructor
  · intro st m h
    cases hm : st.menu with
    | some t => cases m <;> simp [bt_shell_set_menu, hm]
    | none =>
      cases hmm : m with
      | none => simp [bt_shell_set_menu, hm]
      | some t =>
        rcases h with h | h
        · exact absurd hm h
        · exact absurd (hmm ▸ h) (by simp)
  · intro st m₀ m₁ h
    cases hm : st.menu with
    | some t => cases m₀ <;> simp [bt_shell_set_menu, hm] at h
    | none =>
      cases hmm : m₀ with
      | none => simp [bt_shell_set_menu, hm, hmm] at h
      | some t => cases m₁ <;> simp [bt_shell_set_menu, hm, hmm]

theorem set_menu_once_witness :
    ((stPromptActive.menu ≠ none ∨ (none : Option (List MenuEntry)) = none) ∧
      bt_shell_set_menu stPromptActive none = (stPromptActive, false)) ∧
    ((bt_shell_set_menu data_init (some menuE)).2 = true ∧
      (bt_shell_set_menu data_init (some menuE)).1.menu = some menuE ∧
      bt_shell_set_menu (bt_shell_set_menu data_init (some menuE)).1 (some menuC) =
        ((bt_shell_set_menu data_init (some menuE)).1, false)) :=
  ⟨⟨Or.inr rfl, set_menu_once.1 stPromptActive none (Or.inr rfl)⟩,
    ⟨rfl, (set_menu_once.2 data_init (some menuE) (some menuC) rfl).1,
      (set_menu_once.2 data_init (some menuE) (some menuC) rfl).2⟩⟩

/-! ### C10: a pending prompt is released before the input detaches -/

/-- C10: when the run loop exits with a prompt override still pending, the
teardown of `bt_shell_run` invokes the captured callback exactly once, with
the empty string and the captured context, and this invocation precedes the
destruction of the input binding. -/
theorem run_end_releases_prompt (st : ShellState) (h : st.saved_prompt = true) :
    (bt_shell_run_end st).2 =
      Event.promptCall st.saved_func [] st.saved_user_data ::
        (if st.input then [Event.detachInput] else []) ∧
    (bt_shell_run_end st).2.count (Event.promptCall st.saved_func [] st.saved_user_data)
      = 1 := by
  have hr := release_prompt_active st [] h
  cases hi : st.input <;>
    simp [bt_shell_run_end, hr, bt_shell_detach, hi, List.count_cons]

theorem run_end_releases_prompt_witness :
    stRunPending.saved_prompt = true ∧
    (bt_shell_run_end stRunPending).2 =
      Event.promptCall (some 3) [] 4 :: (if stRunPending.input then [Event.detachInput] else []) :=
  ⟨rfl, (run_end_releases_prompt stRunPending rfl).1⟩

/-! ### Tokenization and history lemmas -/

theorem isPrefixOf_self (l : Str) : l.isPrefixOf l = true := by
  induction l with
  | nil => rfl
  | cons a t ih => simp [List.isPrefixOf, ih]

theorem split_space_aux (c a : Str) (hc : ∀ x ∈ c, x ≠ ' ') :
    (c ++ ' ' :: a).takeWhile (fun x => x != ' ') = c ∧
    (c ++ ' ' :: a).dropWhile (fun x => x != ' ') = ' ' :: a := by
  induction c with
  | nil => simp
  | cons x t ih =>
    have hx : (x != ' ') = true := bne_iff_ne.mpr (hc x (by simp))
    obtain ⟨h1, h2⟩ := ih (fun y hy => hc y (by simp [hy]))
    simp [List.takeWhile_cons, List.dropWhile_cons, hx, h1, h2]

theorem nospace_aux (c : Str) (hc : ∀ x ∈ c, x ≠ ' ') :
    c.takeWhile (fun x => x != ' ') = c ∧
    c.dropWhile (fun x => x != ' ') = [] := by
  induction c with
  | nil => simp
  | cons x t ih =>
    have hx : (x != ' ') = true := bne_iff_ne.mpr (hc x (by simp))
    obtain ⟨h1, h2⟩ := ih (fun y hy => hc y (by simp [hy]))
    simp [List.takeWhile_cons, List.dropWhile_cons, hx, h1, h2]

theorem strtok_split_sep (c a : Str) (hne : c ≠ []) (hc : ∀ x ∈ c, x ≠ ' ') :
    strtok_split (c ++ ' ' :: a) = (some c, a) := by
  obtain ⟨x, t, rfl⟩ := List.exists_cons_of_ne_nil hne
  have hxne : x ≠ ' ' := hc x (by simp)
  have hx0 : (x == ' ') = false := beq_eq_false_iff_ne.mpr hxne
  have hx1 : (x != ' ') = true := bne_iff_ne.mpr hxne
  obtain ⟨h1, h2⟩ := split_space_aux (x :: t) a hc
  have h2' : (t ++ ' ' :: a).dropWhile (fun x => x != ' ') = ' ' :: a := by
    simpa [List.dropWhile_cons, hx1] using h2
  have h1' : (t ++ ' ' :: a).takeWhile (fun x => x != ' ') = t := by
    simpa [List.takeWhile_cons, hx1] using h1
  simp [strtok_split, List.dropWhile_cons, hx0, hxne, h1', h2']

theorem strtok_split_no_sep (c : Str) (hne : c ≠ []) (hc : ∀ x ∈ c, x ≠ ' ') :
    strtok_split c = (some c, []) := by
  obtain ⟨x, t, rfl⟩ := List.exists_cons_of_ne_nil hne
  have hxne : x ≠ ' ' := hc x (by simp)
  have hx0 : (x == ' ') = false := beq_eq_false_iff_ne.mpr hxne
  have hx1 : (x != ' ') = true := bne_iff_ne.mpr hxne
  obtain ⟨h1, h2⟩ := nospace_aux (x :: t) hc
  have h2' : t.dropWhile (fun x => x != ' ') = [] := by
    simpa [List.dropWhile_cons, hx1] using h2
  have h1' : t.takeWhile (fun x => x != ' ') = t := by
    simpa [List.takeWhile_cons, hx1] using h1
  simp [strtok_split, List.dropWhile_cons, hx0, hxne, h1', h2']

theorem strtok_split_all_space (l : Str) (hl : ∀ x ∈ l, x = ' ') :
    strtok_split l = (none, []) := by
  have hd : l.dropWhile (fun c => c == ' ') = [] := by
    induction l with
    | nil => rfl
    | cons x t ih =>
      have hx : (x == ' ') = true := beq_iff_eq.mpr (hl x (by simp))
      simp [List.dropWhile_cons, hx, ih (fun y hy => hl y (by simp [hy]))]
  simp [strtok_split, hd]

theorem strip_trailing_space_concat (a : Str) :
    strip_trailing_space (a ++ [' ']) = a := by
  simp [strip_trailing_space, List.getLast?_concat, List.dropLast_concat]

/-- A line just appended to the history is found by the backward search at
offset 0 of the most recent entry. -/
theorem history_search_concat (h : List Str) (l : Str) :
    history_search l (h ++ [l]) = some 0 := by
  simp [history_search, List.reverse_append, historySearchAux, searchLineRev,
    Nat.sub_self, isPrefixOf_self]

/-- The resulting `data` state of a non-empty, non-prompt-consumed line:
only the history changes. -/
theorem rl_handler_state (st : ShellState) (l : Str)
    (h : st.saved_prompt = false) (hl : l ≠ []) :
    (rl_handler st (some l)).1 = { st with history := rl_history_update st l } := by
  rcases hs : strtok_split l with ⟨c, a⟩
  cases c with
  | none => rw [rl_handler_no_token st l a h hl hs]
  | some c => rw [rl_handler_dispatch st l c a h hl hs]

/-! ### C1: `help` with no external menu -/

/-- C1 is false of the code: submitting `help` while no external menu is
attached produces no output at all (`shell_exec` returns immediately when
`data.menu` is NULL), in particular no listing containing the built-in
entries. -/
theorem help_without_menu_counterexample :
    (rl_handler data_init (some "help".toList)).2 = [] ∧
    Event.menuRow "version".toList [] "Display version".toList ∉
      (rl_handler data_init (some "help".toList)).2 := by
  exact ⟨by decide, by decide⟩

/-- C1 (amended): submitting `help` while no external menu is attached is a
no-op; when an external table `m` that does not itself resolve `help` is
attached, `help` prints the header and the rows of `m` followed by exactly
the four built-in entries with their fixed descriptions. -/
theorem help_menu_listing (st : ShellState) (m : List MenuEntry)
    (hm : st.menu = some m) (hp : st.saved_prompt = false)
    (hf : find_exec m "help".toList = none) :
    (rl_handler st (some "help".toList)).2 =
      Event.textOut "Available commands:".toList ::
      Event.textOut "-------------------".toList ::
      (m ++ default_menu).map (fun e => Event.menuRow e.cmd (e.arg.getD []) (e.desc.getD [])) := by
  have hs : strtok_split "help".toList = (some "help".toList, []) := by decide
  have hd : find_exec default_menu ['h', 'e', 'l', 'p'] = some Handler.help := by decide
  have hf' : find_exec m ['h', 'e', 'l', 'p'] = none := hf
  rw [rl_handler_dispatch st _ _ _ hp (by decide) hs]
  simp [hm, shell_exec, hf', hd, runHandler, shell_print_menu, strip_trailing_space]

theorem help_menu_listing_witness :
    stMenuE.menu = some menuE ∧ stMenuE.saved_prompt = false ∧
    find_exec menuE "help".toList = none ∧
    (rl_handler stMenuE (some "help".toList)).2 =
      Event.textOut "Available commands:".toList ::
      Event.textOut "-------------------".toList ::
      (menuE ++ default_menu).map
        (fun e => Event.menuRow e.cmd (e.arg.getD []) (e.desc.getD [])) :=
  ⟨rfl, rfl, by decide, help_menu_listing stMenuE menuE rfl rfl (by decide)⟩

/-! ### C3: history recording -/

/-- C3 is false of the code: with history `["a", "b"]` the submitted line
`a` differs from the immediately preceding entry `b`, yet it is not
recorded, because `history_search` finds `a` at offset 0 of the older entry
`a` and `rl_handler` only adds on a non-zero search result. -/
theorem history_counterexample :
    "a".toList ≠ "b".toList ∧
    (rl_handler ⟨none, ["a".toList, "b".toList], false, none, 0, false⟩
        (some "a".toList)).1.history = ["a".toList, "b".toList] := by
  exact ⟨by decide, by decide⟩

/-- C3 (amended): a completed non-empty line not consumed by a prompt
release is recorded in history exactly when the backward substring search
(`history_search`) does not locate it at offset 0 of the nearest matching
entry — not merely when it differs from the immediately preceding entry;
in particular submitting the same line twice consecutively yields one new
history entry, not two (the second submission never adds); the line is then
handed to the command dispatcher. -/
theorem history_suppression (st : ShellState) (l : Str)
    (h : st.saved_prompt = false) (hl : l ≠ []) :
    ((rl_handler st (some l)).1.history = st.history ++ [l] ↔
        history_search l st.history ≠ some 0) ∧
    (rl_handler (rl_handler st (some l)).1 (some l)).1.history =
      (rl_handler st (some l)).1.history ∧
    (∀ c a, strtok_split l = (some c, a) →
        (rl_handler st (some l)).2 = shell_exec st.menu (some c) (strip_trailing_space a)) := by
  have hst := rl_handler_state st l h hl
  have hsp1 : (rl_handler st (some l)).1.saved_prompt = false := by rw [hst]; exact h
  have hst2 := rl_handler_state (rl_handler st (some l)).1 l hsp1 hl
  refine ⟨?_, ?_, ?_⟩
  · rw [hst]
    by_cases hc : history_search l st.history = some 0
    · simp [rl_history_update, hc, List.self_eq_append_right]
    · simp [rl_history_update, hc]
  · rw [hst2]
    have : history_search l (rl_handler st (some l)).1.history = some 0 := by
      rw [hst]
      by_cases hc : history_search l st.history = some 0
      · simp [rl_history_update, hc]
      · simp [rl_history_update, hc, history_search_concat]
    simp [rl_history_update, this]
  · intro c a hs
    rw [rl_handler_dispatch st l c a h hl hs]

theorem history_suppression_witness :
    data_init.saved_prompt = false ∧ "x".toList ≠ [] ∧
    (rl_handler (rl_handler data_init (some "x".toList)).1 (some "x".toList)).1.history =
      (rl_handler data_init (some "x".toList)).1.history :=
  ⟨rfl, by decide, (history_suppression data_init "x".toList rfl (by decide)).2.1⟩

/-! ### C4: disposal of empty and whitespace-only lines -/

/-- C4 is false of the code: only the zero-length line is discarded before
the prompt-release attempt.  A line consisting of a single space is offered
to `bt_shell_release_prompt` (the pending callback receives it verbatim),
and with no prompt pending it is recorded in history. -/
theorem whitespace_counterexample :
    (rl_handler stPromptActive (some " ".toList)).2 =
      [Event.promptCall (some 1) " ".toList 2] ∧
    (rl_handler data_init (some " ".toList)).1.history = [" ".toList] := by
  exact ⟨by decide, by decide⟩

/-- C4 (amended): only the literally empty (zero-length) line is discarded
outright — no release attempt, no history, no dispatch, no state change.
A non-empty line, even one consisting solely of spaces, is offered to the
prompt-override release first; when no override is pending a space-only
line produces no dispatch at all (`strtok_r` yields no command token), so
it is never executed and never reported as invalid. -/
theorem empty_line_handling (st : ShellState) (l : Str) :
    ((rl_handler st (some [])).1 = st ∧ (rl_handler st (some [])).2 = []) ∧
    (st.saved_prompt = true → l ≠ [] →
        (rl_handler st (some l)).2 =
          [Event.promptCall st.saved_func l st.saved_user_data]) ∧
    (st.saved_prompt = false → l ≠ [] → (∀ x ∈ l, x = ' ') →
        (rl_handler st (some l)).2 = []) := by
  refine ⟨⟨by simp [rl_handler], by simp [rl_handler]⟩, ?_, ?_⟩
  · intro hp hl
    rw [rl_handler_prompt st l hp hl]
  · intro hp hl hsp
    rw [rl_handler_no_token st l [] hp hl (strtok_split_all_space l hsp)]

theorem empty_line_handling_witness :
    stPromptActive.saved_prompt = true ∧ "  ".toList ≠ [] ∧
    (rl_handler stPromptActive (some "  ".toList)).2 =
      [Event.promptCall stPromptActive.saved_func "  ".toList
        stPromptActive.saved_user_data] :=
  ⟨rfl, by decide,
    (empty_line_handling stPromptActive "  ".toList).2.1 rfl (by decide)⟩

/-! ### C7: dispatch of a raw line -/

/-- C7 is false of the code: `strtok_r` consumes exactly one separator
character, not the whole first run of whitespace, so the handler of `e`
receives the argument `" x"` (with a leading space) for the line `e  x`,
where a split on the first whitespace run would give `"x"`. -/
theorem split_run_counterexample :
    (rl_handler stMenuE (some "e  x".toList)).2 = [Event.extCall 0 " x".toList] ∧
    " x".toList ≠ "x".toList := by
  exact ⟨by decide, by decide⟩

/-- C7 (amended): execution of a dispatched line is a no-op when no menu is
attached or the line is empty or all spaces; otherwise the line is split at
the first space following the leading command token — exactly one separator
character is consumed, so the remaining characters of a whitespace run stay
at the front of the argument (the argument may be the empty string) — one
trailing space of the argument is stripped, and an unresolved command name
prints "Invalid command" without requesting loop termination. -/
theorem dispatch_behavior :
    (∀ (st : ShellState) (l : Str), st.menu = none → st.saved_prompt = false →
        (rl_handler st (some l)).2 = []) ∧
    (∀ (st : ShellState) (l : Str), st.saved_prompt = false → (∀ x ∈ l, x = ' ') →
        (rl_handler st (some l)).2 = []) ∧
    (∀ c a : Str, c ≠ [] → (∀ x ∈ c, x ≠ ' ') →
        strtok_split (c ++ ' ' :: a) = (some c, a)) ∧
    (∀ c : Str, c ≠ [] → (∀ x ∈ c, x ≠ ' ') → strtok_split c = (some c, [])) ∧
    (∀ a : Str, strip_trailing_space (a ++ [' ']) = a) ∧
    (∀ (st : ShellState) (l c a : Str), st.saved_prompt = false → l ≠ [] →
        strtok_split l = (some c, a) →
        (rl_handler st (some l)).2 = shell_exec st.menu (some c) (strip_trailing_space a)) ∧
    (∀ (m : List MenuEntry) (c a : Str),
        find_exec m c = none → find_exec default_menu c = none →
        shell_exec (some m) (some c) a = [Event.textOut "Invalid command".toList] ∧
        Event.quitLoop ∉ shell_exec (some m) (some c) a) := by
  refine ⟨?_, ?_, strtok_split_sep, strtok_split_no_sep, strip_trailing_space_concat, ?_, ?_⟩
  · intro st l hm hp
    rcases eq_or_ne l [] with rfl | hl
    · simp [rl_handler]
    · rcases hs : strtok_split l with ⟨c, a⟩
      cases c with
      | none => simp [rl_handler_no_token st l a hp hl hs]
      | some c =>
        rw [rl_handler_dispatch st l c a hp hl hs, hm]
        rfl
  · intro st l hp hsp
    rcases eq_or_ne l [] with rfl | hl
    · simp [rl_handler]
    · rw [rl_handler_no_token st l [] hp hl (strtok_split_all_space l hsp)]
  · intro st l c a hp hl hs
    rw [rl_handler_dispatch st l c a hp hl hs]
  · intro m c a hf hd
    simp [shell_exec, hf, hd]

theorem dispatch_behavior_witness :
    ("cd".toList ≠ [] ∧ (∀ x ∈ "cd".toList, x ≠ ' ')) ∧
    strtok_split ("cd".toList ++ ' ' :: " y".toList) = (some "cd".toList, " y".toList) ∧
    strip_trailing_space ("x ".toList ++ [' ']) = "x ".toList :=
  ⟨⟨by decide, by decide⟩,
    (dispatch_behavior.2.2.1 "cd".toList " y".toList (by decide) (by decide)),
    dispatch_behavior.2.2.2.2.1 "x ".toList⟩

/-! ### C5: argument completion -/

theorem findGen_skip (e : MenuEntry) (rest : List MenuEntry) (c : Str)
    (h : e.gen = none) : findGen (e :: rest) c = findGen rest c := by
  simp [findGen, h]

/-- No built-in entry declares a completer, so prepending the built-in
table to a scan never changes which completer is found. -/
theorem findGen_default_append (m : List MenuEntry) (c : Str) :
    findGen (default_menu ++ m) c = findGen m c := by
  simp only [default_menu, List.cons_append, List.nil_append]
  rw [findGen_skip _ _ _ rfl, findGen_skip _ _ _ rfl, findGen_skip _ _ _ rfl,
    findGen_skip _ _ _ rfl]

/-- C5: for every completion request with the cursor beyond column 0, the
candidates the code offers are exactly those of the specification's
procedure: take the already-typed command token (the line buffer up to the
separator before the cursor's word), look for it first in the built-in
table and then in the external table, delegate to the found entry's
argument completer together with its display hook, and offer no candidates
when no matching entry declares a completer.  (The code scans the external
table twice because `menu_completion` shadows its table parameter; the
result coincides because no built-in entry declares a completer.) -/
theorem completion_spec (m : List MenuEntry) (genFun : Nat → Str → List Str)
    (lineBuffer text : Str) (start : Nat) (hs : 0 < start) :
    shell_completion (some m) genFun lineBuffer text start =
      spec_argument_completion m genFun text (lineBuffer.take (start - 1)) ∧
    (findGen (default_menu ++ m) (lineBuffer.take (start - 1)) = none →
      shell_completion (some m) genFun lineBuffer text start = none) := by
  have key : shell_completion (some m) genFun lineBuffer text start =
      spec_argument_completion m genFun text (lineBuffer.take (start - 1)) := by
    rcases h : findGen m (lineBuffer.take (start - 1)) with _ | ⟨g, d⟩
    · simp [shell_completion, if_pos hs, menu_completion, h, spec_argument_completion,
        findGen_default_append]
    · rcases hg : genFun g text with _ | ⟨x, xs⟩ <;>
        simp [shell_completion, if_pos hs, menu_completion, h, hg,
          spec_argument_completion, findGen_default_append]
  refine ⟨key, fun h => ?_⟩
  rw [key]
  simp [spec_argument_completion, h]

theorem completion_spec_witness :
    (0 < 2) ∧
    shell_completion (some menuC) genW "c d".toList "d".toList 2 =
      spec_argument_completion menuC genW "d".toList ("c d".toList.take 1) ∧
    shell_completion (some menuC) genW "c d".toList "d".toList 2 =
      some (some 6, ["aa".toList]) :=
  ⟨by decide, (completion_spec menuC genW "c d".toList "d".toList 2 (by decide)).1,
    by decide⟩

/-! ### C8: hexdump geometry -/

theorem hexTriple_length (c : List Nat) (j : Nat) : (hexTriple c j).length = 3 := by
  unfold hexTriple
  cases c.get? j <;> rfl

theorem hexPairs_length (c : List Nat) : (hexPairs c).length = 48 := by
  have hc : (List.length ∘ hexTriple c) = fun _ => 3 :=
    funext fun j => hexTriple_length c j
  rw [hexPairs, List.length_flatten, List.map_map, hc]
  decide

theorem asciiEntry_map (c : List Nat) :
    ∀ n, c.length ≤ n →
      (List.range n).map (asciiEntry c) =
        c.map renderAscii ++ List.replicate (n - c.length) ' ' := by
  induction c with
  | nil =>
    intro n _
    have hfun : asciiEntry [] = fun _ => ' ' := by
      funext j; simp [asciiEntry]
    rw [hfun]
    simp only [List.map_nil, List.nil_append, List.length_nil, Nat.sub_zero]
    refine List.eq_replicate_iff.mpr ⟨by simp, ?_⟩
    intro x hx
    rcases List.mem_map.mp hx with ⟨j, _, rfl⟩
    rfl
  | cons b c' ih =>
    intro n hn
    cases n with
    | zero => simp at hn
    | succ n' =>
      have hcomp : (asciiEntry (b :: c')) ∘ Nat.succ = asciiEntry c' := by
        funext j; simp [asciiEntry, Function.comp]
      rw [List.range_succ_eq_map, List.map_cons, List.map_map, hcomp,
        ih n' (by simpa using hn)]
      have h0 : asciiEntry (b :: c') 0 = renderAscii b := rfl
      rw [h0]
      simp [Nat.succ_sub_succ]

theorem hexdump_row_drop51 (c : List Nat) (h : c.length ≤ 16) :
    (hexdump_row c).drop 51 = c.map renderAscii ++ List.replicate (16 - c.length) ' ' := by
  have hpre : (' ' :: hexPairs c ++ [' ', ' ']).length = 51 := by
    simp [hexPairs_length c]
  have hrow : hexdump_row c = (' ' :: hexPairs c ++ [' ', ' ']) ++ asciiCol c := by
    simp [hexdump_row]
  rw [hrow, ← hpre, List.drop_left, asciiCol, asciiEntry_map c 16 h]

theorem div16_step (n : Nat) (hn : 1 ≤ n) : (n + 15) / 16 = (n - 16 + 15) / 16 + 1 := by
  rcases Nat.lt_or_ge n 16 with h | h
  · have h1 : n - 16 = 0 := by omega
    rw [h1]
    norm_num
    exact Nat.div_eq_of_lt_le (by omega) (by omega)
  · have h2 : n + 15 = (n - 16 + 15) + 16 := by omega
    rw [h2, Nat.add_div_right _ (by norm_num)]

theorem chunks16Aux_length :
    ∀ (f : Nat) (l : List Nat), l.length ≤ f →
      (chunks16Aux f l).length = (l.length + 15) / 16 := by
  intro f
  induction f with
  | zero =>
    intro l hl
    have : l = [] := List.eq_nil_of_length_eq_zero (Nat.le_zero.mp hl)
    subst this; rfl
  | succ f ih =>
    intro l hl
    cases l with
    | nil => rfl
    | cons b rest =>
      have hdrop : ((b :: rest).drop 16).length ≤ f := by
        simp only [List.length_drop, List.length_cons] at *
        omega
      simp only [chunks16Aux, List.length_cons]
      rw [ih _ hdrop]
      rw [div16_step (rest.length + 1) (by omega)]
      simp [List.length_drop]

theorem chunks16Aux_get :
    ∀ (f : Nat) (l : List Nat) (i : Nat), l.length ≤ f →
      i < (chunks16Aux f l).length →
      (chunks16Aux f l).get? i = some ((l.drop (16 * i)).take 16) := by
  intro f
  induction f with
  | zero =>
    intro l i hl hi
    have : l = [] := List.eq_nil_of_length_eq_zero (Nat.le_zero.mp hl)
    subst this; simp [chunks16Aux] at hi
  | succ f ih =>
    intro l i hl hi
    cases l with
    | nil => simp [chunks16Aux] at hi
    | cons b rest =>
      cases i with
      | zero => simp [chunks16Aux]
      | succ i =>
        have hdrop : ((b :: rest).drop 16).length ≤ f := by
          simp only [List.length_drop, List.length_cons] at *
          omega
        have hi' : i < (chunks16Aux f ((b :: rest).drop 16)).length := by
          simpa [chunks16Aux] using hi
        simp only [chunks16Aux, List.get?_cons_succ]
        rw [ih _ i hdrop hi', List.drop_drop]
        have : 16 + 16 * i = 16 * (i + 1) := by omega
        rw [this]

/-- C8: for every byte sequence, `bt_shell_hexdump` renders exactly
`ceil(len/16)` rows; the `i`-th row is the row of the `i`-th 16-byte chunk,
whose ASCII column carries `min(16, len - 16*i)` rendered characters
(the rendering of the chunk's bytes) followed by pad spaces, and every
non-printable byte is rendered as `'.'`. -/
theorem hexdump_ok (buf : List Nat) :
    (bt_shell_hexdump buf).length = (buf.length + 15) / 16 ∧
    (∀ i, i < (bt_shell_hexdump buf).length →
        (bt_shell_hexdump buf).get? i = some (hexdump_row ((buf.drop (16 * i)).take 16)) ∧
        ((buf.drop (16 * i)).take 16).length = min 16 (buf.length - 16 * i) ∧
        (hexdump_row ((buf.drop (16 * i)).take 16)).drop 51 =
          ((buf.drop (16 * i)).take 16).map renderAscii ++
            List.replicate (16 - min 16 (buf.length - 16 * i)) ' ') ∧
    (∀ b, isprint b = false → renderAscii b = '.') := by
  refine ⟨?_, ?_, ?_⟩
  · simp [bt_shell_hexdump, chunks16, chunks16Aux_length buf.length buf le_rfl]
  · intro i hi
    have hi' : i < (chunks16 buf).length := by
      simpa [bt_shell_hexdump] using hi
    have hget := chunks16Aux_get buf.length buf i le_rfl hi'
    have hlen : ((buf.drop (16 * i)).take 16).length = min 16 (buf.length - 16 * i) := by
      simp [List.length_take, List.length_drop]
    refine ⟨?_, hlen, ?_⟩
    · rw [bt_shell_hexdump, List.get?_map]
      rw [show (chunks16 buf).get? i = some ((buf.drop (16 * i)).take 16) from hget]
      rfl
    · rw [← hlen]
      exact hexdump_row_drop51 _ (le_of_le_of_eq (le_of_eq hlen) (rfl) |>.trans (min_le_left 16 _))
  · intro b hb
    simp [renderAscii, hb]

theorem hexdump_ok_witness :
    (1 < (bt_shell_hexdump buf17).length) ∧
    (bt_shell_hexdump buf17).get? 1 = some (hexdump_row ((buf17.drop (16 * 1)).take 16)) ∧
    isprint 200 = false ∧ renderAscii 200 = '.' :=
  ⟨by decide, ((hexdump_ok buf17).2.1 1 (by decide)).1, by decide,
    (hexdump_ok buf17).2.2 200 (by decide)⟩

/-! ### C9: signal policy -/

theorem sig_beq_int_term : (Sig.int == Sig.term) = false := rfl

theorem sig_beq_term_term : (Sig.term == Sig.term) = true := rfl

theorem signal_trace_terminated (tr : List (Sig × Bool)) :
    (signal_trace true tr).2.count Event.quitLoop = 0 := by
  induction tr with
  | nil => rfl
  | cons r rest ih =>
    obtain ⟨s, b⟩ := r
    cases s <;> cases b <;>
      simp [signal_trace, signal_read, sigterm_action, List.count_append, ih,
        List.count_cons, List.count_nil, beq_iff_eq]

theorem signal_trace_quit_count (tr : List (Sig × Bool)) :
    (signal_trace false tr).2.count Event.quitLoop =
      if tr.any (fun r => r.1 == Sig.term || !r.2) then 1 else 0 := by
  induction tr with
  | nil => rfl
  | cons r rest ih =>
    obtain ⟨s, b⟩ := r
    cases s <;> cases b <;>
      simp [signal_trace, signal_read, sigterm_action, List.count_append, ih,
        signal_trace_terminated, List.count_cons, List.count_nil, List.any_cons,
        beq_iff_eq, sig_beq_int_term, sig_beq_term_term] <;>
      try simp only [Bool.not_true, Bool.false_or]

/-- C9: over every sequence of delivered signal records (each tagged with
whether `data.input` was bound at delivery), run-loop termination is
requested exactly once when the sequence contains a terminate signal or an
interrupt with no input bound, and never otherwise; an interrupt with no
input bound behaves identically to a terminate signal (the C fall
through); an interrupt with input bound only clears the line, requests no
termination and leaves the `terminated` flag unchanged. -/
theorem signal_policy (tr : List (Sig × Bool)) (t : Bool) (b : Bool) :
    ((signal_trace false tr).2.count Event.quitLoop =
      if tr.any (fun r => r.1 == Sig.term || !r.2) then 1 else 0) ∧
    signal_read t Sig.int false = signal_read t Sig.term b ∧
    signal_read t Sig.int true = (t, [Event.clearLine]) :=
  ⟨signal_trace_quit_count tr, rfl, rfl⟩
